import Mathlib

/-!
Shallow embedding of the donut repository's core (src/main.rs): the glam
vector operations it uses, the `raymarch` sphere-tracing loop, the `torus`
signed-distance field, and `Camera::render`. `f32` values are modelled as
rationals; the square-root intrinsic used by `length`/`normalize` is not part
of the source, so it is threaded through as an explicit function parameter
`sq : ℚ → ℚ`. The per-pixel output values `f32::INFINITY` and `f32::NAN`
written by `render` are modelled by the dedicated constructors of `FVal`.
-/

namespace Donut

/-- glam `Vec3`, components modelled as rationals. -/
structure Vec3 where
  x : ℚ
  y : ℚ
  z : ℚ
  deriving DecidableEq

def Vec3.add (a b : Vec3) : Vec3 := ⟨a.x + b.x, a.y + b.y, a.z + b.z⟩

instance : Add Vec3 := ⟨Vec3.add⟩

def Vec3.sub (a b : Vec3) : Vec3 := ⟨a.x - b.x, a.y - b.y, a.z - b.z⟩

instance : Sub Vec3 := ⟨Vec3.sub⟩

/-- Scalar multiply `v * t` (glam component-wise scalar multiply). -/
def Vec3.smul (a : Vec3) (t : ℚ) : Vec3 := ⟨a.x * t, a.y * t, a.z * t⟩

def Vec3.dot (a b : Vec3) : ℚ := a.x * b.x + a.y * b.y + a.z * b.z

/-- glam `Vec3::ZERO`. -/
def Vec3.zero : Vec3 := ⟨0, 0, 0⟩

/-- glam `Vec3::length`, i.e. `sqrt(self.dot(self))`; `sq` interprets sqrt. -/
def Vec3.length (v : Vec3) (sq : ℚ → ℚ) : ℚ := sq (v.dot v)

/-- glam `Vec3::normalize`, i.e. `self * (1 / self.length())`. -/
def Vec3.normalize (v : Vec3) (sq : ℚ → ℚ) : Vec3 := v.smul (1 / v.length sq)

/-- glam `Vec2`, used by `torus` via `vec2(..).length()`. -/
structure Vec2 where
  x : ℚ
  y : ℚ
  deriving DecidableEq

/-- glam `Vec2::length`. -/
def Vec2.length (v : Vec2) (sq : ℚ → ℚ) : ℚ := sq (v.x * v.x + v.y * v.y)

/-- The `Ray { origin, direction }` struct from mod `raymarch`. -/
structure Ray where
  origin : Vec3
  direction : Vec3
  deriving DecidableEq

/-- Method `Ray::at(t) = origin + direction * t` (`at` is a Lean keyword). -/
def Ray.at' (r : Ray) (t : ℚ) : Vec3 := r.origin + r.direction.smul t

/-- The `RaymarchOptions` struct from mod `raymarch`. -/
structure RaymarchOptions where
  max_iterations : ℕ
  far_clip : ℚ
  epsilon : ℚ
  normal_epsilon : ℚ
  deriving DecidableEq

/-- The `RaymarchResult` enum from mod `raymarch`. -/
inductive RaymarchResult where
  | MissedScene (iterations : ℕ) (nearest_distance : ℚ)
  | ReachedMaxIterations (nearest_distance : ℚ)
  | HitScene (iterations : ℕ) (depth : ℚ) (normal : Vec3)
  deriving DecidableEq

/-- The `nearest_distance` field of the variants that carry one. -/
def RaymarchResult.nearestDistance? : RaymarchResult → Option ℚ
  | .MissedScene _ nearest_distance => some nearest_distance
  | .ReachedMaxIterations nearest_distance => some nearest_distance
  | .HitScene _ _ _ => none

/-- The `depth` field of a `HitScene` result. -/
def RaymarchResult.hitDepth? : RaymarchResult → Option ℚ
  | .HitScene _ depth _ => some depth
  | _ => none

/-- The surface normal computed in `raymarch`'s hit branch: the scene is
sampled at `scene_pos` offset by `normal_epsilon` along each axis
(`offset_vec.xyy()`, `.yxy()`, `.yyx()` with `offset_vec = vec2(ε_n, 0)`),
and the three samples are assembled and normalized. -/
def hitNormal (sq : ℚ → ℚ) (scene : Vec3 → ℚ) (options : RaymarchOptions)
    (scene_pos : Vec3) : Vec3 :=
  let offset := options.normal_epsilon
  let x := scene (scene_pos + Vec3.mk offset 0 0)
  let y := scene (scene_pos + Vec3.mk 0 offset 0)
  let z := scene (scene_pos + Vec3.mk 0 0 offset)
  Vec3.normalize (Vec3.mk x y z) sq

/-- The body of `raymarch`'s `for i in 0..max_iterations` loop, as a
fuel-indexed recursion: `fuel` is the number of loop iterations remaining,
`i` the current iteration index, `depth` and `nearest_distance` the mutable
loop state. Each iteration samples the scene at `ray.at(depth)`, folds the
sample into `nearest_distance`, then checks miss (`depth > far_clip`), then
hit (`scene_distance < epsilon`), else advances `depth` by the sample. -/
def raymarchLoop (sq : ℚ → ℚ) (ray : Ray) (scene : Vec3 → ℚ)
    (options : RaymarchOptions) :
    ℕ → ℕ → ℚ → ℚ → RaymarchResult
  | 0, _, _, nearest_distance => .ReachedMaxIterations nearest_distance
  | fuel + 1, i, depth, nearest_distance =>
    let scene_pos := ray.at' depth
    let scene_distance := scene scene_pos
    let nearest_distance := min nearest_distance scene_distance
    if options.far_clip < depth then
      .MissedScene i nearest_distance
    else if scene_distance < options.epsilon then
      .HitScene i depth (hitNormal sq scene options scene_pos)
    else
      raymarchLoop sq ray scene options fuel (i + 1) (depth + scene_distance)
        nearest_distance

/-- Function `raymarch(ray, scene, options)`: `depth` starts at `0`,
`nearest_distance` at `options.far_clip`, and the loop runs for at most
`max_iterations` iterations. -/
def raymarch (sq : ℚ → ℚ) (ray : Ray) (scene : Vec3 → ℚ)
    (options : RaymarchOptions) : RaymarchResult :=
  raymarchLoop sq ray scene options options.max_iterations 0 0 options.far_clip

/-- The sequence of depths the loop visits while it keeps advancing:
`depth 0 = 0` and each step adds the scene sample at the current position
(matching `depth += scene_distance`). -/
def depthSeq (ray : Ray) (scene : Vec3 → ℚ) : ℕ → ℚ
  | 0 => 0
  | j + 1 => depthSeq ray scene j + scene (ray.at' (depthSeq ray scene j))

/-- The scene-distance sample taken on iteration `j`. -/
def sampleAt (ray : Ray) (scene : Vec3 → ℚ) (j : ℕ) : ℚ :=
  scene (ray.at' (depthSeq ray scene j))

/-- Minimum of `far_clip` (the initial `nearest_distance`) and the samples of
iterations `0..k` (exclusive): the value of `nearest_distance` after `k`
samples have been folded in. -/
def minSamples (ray : Ray) (scene : Vec3 → ℚ) (far_clip : ℚ) : ℕ → ℚ
  | 0 => far_clip
  | k + 1 => min (minSamples ray scene far_clip k) (sampleAt ray scene k)

/-- Function `torus(pos, origin, normal, major_radius, minor_radius)` from mod
`objects`, translated line for line. -/
def torus (sq : ℚ → ℚ) (pos origin normal : Vec3)
    (major_radius minor_radius : ℚ) : ℚ :=
  let p := pos - origin
  let q := Vec2.length
    (Vec2.mk ((p - normal.smul (p.dot normal)).length sq - major_radius)
      (p.dot normal)) sq
  q - minor_radius

/-- Torus distance as the spec words it: decompose `p = pos - origin` into
the component along `normal` and the orthogonal in-plane component; the
distance is `length((length(in_plane) - major_radius, along)) - minor_radius`. -/
def torusSpec (sq : ℚ → ℚ) (pos origin normal : Vec3)
    (major_radius minor_radius : ℚ) : ℚ :=
  let p := pos - origin
  let along_normal := p.dot normal
  let in_plane := p - normal.smul along_normal
  Vec2.length (Vec2.mk (in_plane.length sq - major_radius) along_normal) sq
    - minor_radius

/-- A per-pixel depth value: finite, `f32::INFINITY`, or `f32::NAN`. -/
inductive FVal where
  | finite (val : ℚ)
  | inf
  | nan
  deriving DecidableEq

/-- glam `Mat3`, stored as three column vectors. -/
structure Mat3 where
  x_axis : Vec3
  y_axis : Vec3
  z_axis : Vec3
  deriving DecidableEq

/-- glam `Mat3 * Vec3`: linear combination of the columns. -/
def Mat3.mulVec (m : Mat3) (v : Vec3) : Vec3 :=
  m.x_axis.smul v.x + m.y_axis.smul v.y + m.z_axis.smul v.z

/-- The `Camera { origin, basis }` struct from mod `camera`; the const generics `W`, `H`
become explicit arguments of `render`. -/
structure Camera where
  origin : Vec3
  basis : Mat3

/-- The `RenderResult` grids: three per-pixel grids, rows indexed by `y_pixel`,
columns by `x_pixel`. -/
structure RenderResult where
  depth : List (List FVal)
  proximity : List (List ℚ)
  normals : List (List Vec3)

/-- The ray `Camera::render` builds for pixel `(x_pixel, y_pixel)`:
`x = x_pixel/W - 0.5`, `y = y_pixel/H - 0.5`, `z = 1.0`,
`direction = basis * normalize((x, y, z))`, `origin = self.origin`. -/
def pixelRay (sq : ℚ → ℚ) (cam : Camera) (W H : ℕ) (x_pixel y_pixel : ℕ) : Ray :=
  let z : ℚ := 1
  let y : ℚ := (y_pixel : ℚ) / (H : ℚ) - 1/2
  let x : ℚ := (x_pixel : ℚ) / (W : ℚ) - 1/2
  let direction := Vec3.normalize (Vec3.mk x y z) sq
  let direction := cam.basis.mulVec direction
  Ray.mk cam.origin direction

/-- The `(depth, proximity, normal)` triple `Camera::render` stores for one
pixel: each cell starts at its `RenderResult::new` default
(`0.0` / `0.0` / `Vec3::ZERO`) and the `match` on the marching result
overwrites `depth`+`proximity` (miss and max-iterations cases) or
`depth`+`normal` (hit case). -/
def renderPixel (sq : ℚ → ℚ) (cam : Camera) (W H : ℕ) (scene : Vec3 → ℚ)
    (options : RaymarchOptions) (x_pixel y_pixel : ℕ) : FVal × ℚ × Vec3 :=
  match raymarch sq (pixelRay sq cam W H x_pixel y_pixel) scene options with
  | .MissedScene _ nearest_distance => (.inf, nearest_distance, Vec3.zero)
  | .ReachedMaxIterations nearest_distance => (.nan, nearest_distance, Vec3.zero)
  | .HitScene _ depth normal => (.finite depth, 0, normal)

/-- Method `Camera::render`: one marching call per pixel, `y_pixel` ranging over
`0..H` and `x_pixel` over `0..W`. -/
def render (sq : ℚ → ℚ) (cam : Camera) (W H : ℕ) (scene : Vec3 → ℚ)
    (options : RaymarchOptions) : RenderResult where
  depth := (List.range H).map fun y_pixel => (List.range W).map fun x_pixel =>
    (renderPixel sq cam W H scene options x_pixel y_pixel).1
  proximity := (List.range H).map fun y_pixel => (List.range W).map fun x_pixel =>
    (renderPixel sq cam W H scene options x_pixel y_pixel).2.1
  normals := (List.range H).map fun y_pixel => (List.range W).map fun x_pixel =>
    (renderPixel sq cam W H scene options x_pixel y_pixel).2.2

/-- Entry of a grid at row `y`, column `x`. -/
def gridGet? {α : Type} (g : List (List α)) (y x : ℕ) : Option α :=
  match g[y]? with
  | some row => row[x]?
  | none => none

/-! ## Basic lemmas about the embedding -/

@[simp] theorem Vec3.add_def (a b : Vec3) :
    a + b = ⟨a.x + b.x, a.y + b.y, a.z + b.z⟩ := rfl

@[simp] theorem Vec3.sub_def (a b : Vec3) :
    a - b = ⟨a.x - b.x, a.y - b.y, a.z - b.z⟩ := rfl

/-- Evaluating `ray.at(0)` gives `origin`: the depth-zero sample position is the ray origin. -/
theorem Ray.at'_zero (r : Ray) : r.at' 0 = r.origin := by
  cases r with
  | mk o d => cases o; simp [Ray.at', Vec3.smul]

/-- One unfolding of the marching loop when fuel remains: sample, fold the
sample into `nearest_distance`, then miss check, hit check, advance. -/
theorem raymarchLoop_succ (sq : ℚ → ℚ) (ray : Ray) (scene : Vec3 → ℚ)
    (options : RaymarchOptions) (fuel i : ℕ) (depth nearest : ℚ) :
    raymarchLoop sq ray scene options (fuel + 1) i depth nearest =
      if options.far_clip < depth then
        .MissedScene i (min nearest (scene (ray.at' depth)))
      else if scene (ray.at' depth) < options.epsilon then
        .HitScene i depth (hitNormal sq scene options (ray.at' depth))
      else
        raymarchLoop sq ray scene options fuel (i + 1)
          (depth + scene (ray.at' depth)) (min nearest (scene (ray.at' depth))) :=
  rfl

/-! ## Claims about single iterations of the loop -/

/-- C3: on every iteration with fuel remaining, the checks run in this exact
order against the current (pre-update) depth: if `depth > far_clip` the call
returns `MissedScene` with the current iteration index and the updated
minimum (regardless of the sample's value); otherwise, if the sample is
strictly below `epsilon` it returns `HitScene` at the current depth; otherwise
(so also when the sample equals `epsilon` exactly) the depth advances by
exactly the sample and the loop continues. -/
theorem raymarch_check_order (sq : ℚ → ℚ) (ray : Ray) (scene : Vec3 → ℚ)
    (options : RaymarchOptions) (fuel i : ℕ) (depth nearest : ℚ) :
    (options.far_clip < depth →
      raymarchLoop sq ray scene options (fuel + 1) i depth nearest =
        .MissedScene i (min nearest (scene (ray.at' depth)))) ∧
    (¬ options.far_clip < depth → scene (ray.at' depth) < options.epsilon →
      raymarchLoop sq ray scene options (fuel + 1) i depth nearest =
        .HitScene i depth (hitNormal sq scene options (ray.at' depth))) ∧
    (¬ options.far_clip < depth → ¬ scene (ray.at' depth) < options.epsilon →
      raymarchLoop sq ray scene options (fuel + 1) i depth nearest =
        raymarchLoop sq ray scene options fuel (i + 1)
          (depth + scene (ray.at' depth))
          (min nearest (scene (ray.at' depth)))) := by
  refine ⟨fun hmiss => ?_, fun hmiss hhit => ?_, fun hmiss hhit => ?_⟩ <;>
    rw [raymarchLoop_succ]
  · rw [if_pos hmiss]
  · rw [if_neg hmiss, if_pos hhit]
  · rw [if_neg hmiss, if_neg hhit]

/-- Witness for C3: with `far_clip = 1` and current depth `2`, the loop
returns a miss on the spot even though the sample `1` is below
`epsilon = 3`, because the miss check runs first. -/
theorem raymarch_check_order_witness :
    (1 : ℚ) < 2 ∧
      raymarchLoop (fun _ => 0) (Ray.mk Vec3.zero (Vec3.mk 1 0 0))
        (fun _ => 1) (RaymarchOptions.mk 3 1 3 1) 1 0 2 5 =
        .MissedScene 0 (min 5 1) :=
  ⟨by norm_num,
    (raymarch_check_order (fun _ => 0) (Ray.mk Vec3.zero (Vec3.mk 1 0 0))
      (fun _ => 1) (RaymarchOptions.mk 3 1 3 1) 0 0 2 5).1 (by norm_num)⟩

/-- C9: with a positive `epsilon`, if on some iteration the current depth
does not exceed `far_clip` and the scene sample is non-positive, the loop
returns `HitScene` on that very iteration at the current depth (a
non-positive sample is strictly below `epsilon`, so it can never advance the
depth backwards or continue marching). -/
theorem raymarch_nonpositive_sample_hits (sq : ℚ → ℚ) (ray : Ray)
    (scene : Vec3 → ℚ) (options : RaymarchOptions) (fuel i : ℕ)
    (depth nearest : ℚ) (heps : 0 < options.epsilon)
    (hdepth : depth ≤ options.far_clip)
    (hsample : scene (ray.at' depth) ≤ 0) :
    raymarchLoop sq ray scene options (fuel + 1) i depth nearest =
      .HitScene i depth (hitNormal sq scene options (ray.at' depth)) := by
  rw [raymarchLoop_succ, if_neg (not_lt.mpr hdepth),
    if_pos (lt_of_le_of_lt hsample heps)]

/-- Witness for C9 at a concrete state: depth `1 ≤ far_clip = 2`, constant
scene `-1 ≤ 0`, `epsilon = 1 > 0`; the loop hits at depth `1`. -/
theorem raymarch_nonpositive_sample_hits_witness :
    (0 : ℚ) < 1 ∧ (1 : ℚ) ≤ 2 ∧ (-1 : ℚ) ≤ 0 ∧
      raymarchLoop (fun _ => 0) (Ray.mk Vec3.zero (Vec3.mk 1 0 0))
        (fun _ => -1) (RaymarchOptions.mk 4 2 1 1) 2 1 1 2 =
        .HitScene 1 1
          (hitNormal (fun _ => 0) (fun _ => -1) (RaymarchOptions.mk 4 2 1 1)
            ((Ray.mk Vec3.zero (Vec3.mk 1 0 0)).at' 1)) :=
  ⟨by norm_num, by norm_num, by norm_num,
    raymarch_nonpositive_sample_hits (fun _ => 0)
      (Ray.mk Vec3.zero (Vec3.mk 1 0 0)) (fun _ => -1)
      (RaymarchOptions.mk 4 2 1 1) 1 1 1 2 (by norm_num) (by norm_num)
      (by norm_num)⟩

/-- C10: with `max_iterations = 0` the loop body never runs and `raymarch`
returns `ReachedMaxIterations` carrying the initial `nearest_distance`,
which is `options.far_clip`. -/
theorem raymarch_zero_max_iterations (sq : ℚ → ℚ) (ray : Ray)
    (scene : Vec3 → ℚ) (options : RaymarchOptions)
    (h : options.max_iterations = 0) :
    raymarch sq ray scene options =
      .ReachedMaxIterations options.far_clip := by
  rw [raymarch, h]
  rfl

/-- Witness for C10 with `max_iterations = 0` and `far_clip = 7`. -/
theorem raymarch_zero_max_iterations_witness :
    (RaymarchOptions.mk 0 7 1 1).max_iterations = 0 ∧
      raymarch (fun _ => 0) (Ray.mk Vec3.zero (Vec3.mk 1 0 0)) (fun _ => 1)
        (RaymarchOptions.mk 0 7 1 1) = .ReachedMaxIterations 7 :=
  ⟨rfl,
    raymarch_zero_max_iterations (fun _ => 0)
      (Ray.mk Vec3.zero (Vec3.mk 1 0 0)) (fun _ => 1)
      (RaymarchOptions.mk 0 7 1 1) rfl⟩

/-! ## Invariants of the whole marching run -/

/-- Invariant: starting iteration `i` with `depth = depthSeq i` and
`nearest_distance = minSamples i`, the `nearest_distance` carried by a
`MissedScene` result at iteration `j` is `minSamples (j + 1)` (the sample of
the miss iteration is folded in before the check), and by a
`ReachedMaxIterations` result is `minSamples (i + fuel)`. -/
theorem raymarchLoop_nearest (sq : ℚ → ℚ) (ray : Ray) (scene : Vec3 → ℚ)
    (options : RaymarchOptions) :
    ∀ fuel i,
      match raymarchLoop sq ray scene options fuel i (depthSeq ray scene i)
          (minSamples ray scene options.far_clip i) with
      | .MissedScene j nd => nd = minSamples ray scene options.far_clip (j + 1)
      | .ReachedMaxIterations nd =>
          nd = minSamples ray scene options.far_clip (i + fuel)
      | .HitScene _ _ _ => True := by
  intro fuel
  induction fuel with
  | zero =>
    intro i
    show minSamples ray scene options.far_clip i =
      minSamples ray scene options.far_clip (i + 0)
    rw [Nat.add_zero]
  | succ fuel ih =>
    intro i
    rw [raymarchLoop_succ]
    by_cases hmiss : options.far_clip < depthSeq ray scene i
    · rw [if_pos hmiss]
      exact rfl
    · rw [if_neg hmiss]
      by_cases hhit :
          scene (ray.at' (depthSeq ray scene i)) < options.epsilon
      · rw [if_pos hhit]
        exact trivial
      · rw [if_neg hhit]
        have hdepth : depthSeq ray scene i +
            scene (ray.at' (depthSeq ray scene i)) =
            depthSeq ray scene (i + 1) := rfl
        have hmin : min (minSamples ray scene options.far_clip i)
            (scene (ray.at' (depthSeq ray scene i))) =
            minSamples ray scene options.far_clip (i + 1) := rfl
        rw [hdepth, hmin]
        have h := ih (i + 1)
        have hidx : i + 1 + fuel = i + (fuel + 1) := by omega
        rw [hidx] at h
        exact h

/-- Invariant: any `HitScene` result of the loop carries a depth that does
not exceed `far_clip` and whose scene sample is strictly below `epsilon`. -/
theorem raymarchLoop_hit_inv (sq : ℚ → ℚ) (ray : Ray) (scene : Vec3 → ℚ)
    (options : RaymarchOptions) :
    ∀ fuel i depth nearest j d n,
      raymarchLoop sq ray scene options fuel i depth nearest =
        .HitScene j d n →
      d ≤ options.far_clip ∧ scene (ray.at' d) < options.epsilon := by
  intro fuel
  induction fuel with
  | zero =>
    intro i depth nearest j d n h
    exact absurd h (by simp [raymarchLoop])
  | succ fuel ih =>
    intro i depth nearest j d n h
    rw [raymarchLoop_succ] at h
    by_cases hmiss : options.far_clip < depth
    · rw [if_pos hmiss] at h
      exact absurd h (by simp)
    · rw [if_neg hmiss] at h
      by_cases hhit : scene (ray.at' depth) < options.epsilon
      · rw [if_pos hhit] at h
        obtain ⟨-, hd, -⟩ := RaymarchResult.HitScene.injEq .. ▸ h
        exact hd ▸ ⟨not_lt.mp hmiss, hhit⟩
      · rw [if_neg hhit] at h
        exact ih _ _ _ _ _ _ h

/-- Invariant: starting iteration `i` with `depth = depthSeq i`, the run
exhausts its fuel (returns `ReachedMaxIterations`) exactly when, for every
remaining iteration, the depth stays within `far_clip` and the sample stays
at or above `epsilon`. -/
theorem raymarchLoop_reached_iff (sq : ℚ → ℚ) (ray : Ray) (scene : Vec3 → ℚ)
    (options : RaymarchOptions) :
    ∀ fuel i nearest,
      (∃ nd, raymarchLoop sq ray scene options fuel i (depthSeq ray scene i)
          nearest = .ReachedMaxIterations nd) ↔
      ∀ j, j < fuel → depthSeq ray scene (i + j) ≤ options.far_clip ∧
        options.epsilon ≤ sampleAt ray scene (i + j) := by
  intro fuel
  induction fuel with
  | zero =>
    intro i nearest
    constructor
    · intro _ j hj
      exact absurd hj (by omega)
    · intro _
      exact ⟨nearest, rfl⟩
  | succ fuel ih =>
    intro i nearest
    rw [raymarchLoop_succ]
    by_cases hmiss : options.far_clip < depthSeq ray scene i
    · rw [if_pos hmiss]
      constructor
      · intro ⟨nd, h⟩
        exact absurd h (by simp)
      · intro h
        have := (h 0 (by omega)).1
        rw [Nat.add_zero] at this
        exact absurd hmiss (not_lt.mpr this)
    · rw [if_neg hmiss]
      by_cases hhit : scene (ray.at' (depthSeq ray scene i)) < options.epsilon
      · rw [if_pos hhit]
        constructor
        · intro ⟨nd, h⟩
          exact absurd h (by simp)
        · intro h
          have := (h 0 (by omega)).2
          rw [Nat.add_zero] at this
          exact absurd hhit (not_lt.mpr this)
      · rw [if_neg hhit]
        have hdepth : depthSeq ray scene i +
            scene (ray.at' (depthSeq ray scene i)) =
            depthSeq ray scene (i + 1) := rfl
        rw [hdepth]
        rw [ih (i + 1)
          (min nearest (scene (ray.at' (depthSeq ray scene i))))]
        constructor
        · intro h j hj
          match j with
          | 0 =>
            rw [Nat.add_zero]
            exact ⟨not_lt.mp hmiss, not_lt.mp hhit⟩
          | j + 1 =>
            have := h j (by omega)
            have hidx : i + 1 + j = i + (j + 1) := by omega
            rwa [hidx] at this
        · intro h j hj
          have := h (j + 1) (by omega)
          have hidx : i + (j + 1) = i + 1 + j := by omega
          rwa [hidx] at this

/-- C1 counterexample: with `far_clip = 1` and a constant scene distance of
`5`, the run misses at iteration `1` carrying `nearest_distance = 1`
(the initial `far_clip`), while every sample actually taken (iterations `0`
and `1`) equals `5`; so `nearest_distance` is NOT the minimum of the samples
alone. -/
theorem raymarch_nearest_not_sample_min :
    raymarch (fun _ => 0) (Ray.mk Vec3.zero (Vec3.mk 1 0 0)) (fun _ => 5)
      (RaymarchOptions.mk 10 1 (1/2) 1) = .MissedScene 1 1 ∧
    sampleAt (Ray.mk Vec3.zero (Vec3.mk 1 0 0)) (fun _ => 5) 0 = 5 ∧
    sampleAt (Ray.mk Vec3.zero (Vec3.mk 1 0 0)) (fun _ => 5) 1 = 5 ∧
    (1 : ℚ) ≠ 5 := by
  refine ⟨by with_unfolding_all rfl, by with_unfolding_all rfl,
    by with_unfolding_all rfl, by norm_num⟩

/-- C1 (amended): the `nearest_distance` carried by a result is the minimum
of `far_clip` (its initial value) and all scene-distance samples taken
across the iterations actually performed: samples `0..i` inclusive for a
miss at iteration `i`, samples `0..max_iterations` exclusive when the
iteration budget is exhausted. -/
theorem raymarch_nearest_distance_min (sq : ℚ → ℚ) (ray : Ray)
    (scene : Vec3 → ℚ) (options : RaymarchOptions) :
    match raymarch sq ray scene options with
    | .MissedScene i nd => nd = minSamples ray scene options.far_clip (i + 1)
    | .ReachedMaxIterations nd =>
        nd = minSamples ray scene options.far_clip options.max_iterations
    | .HitScene _ _ _ => True := by
  have h := raymarchLoop_nearest sq ray scene options options.max_iterations 0
  have h0 : depthSeq ray scene 0 = 0 := rfl
  have h1 : minSamples ray scene options.far_clip 0 = options.far_clip := rfl
  rw [h0, h1, Nat.zero_add] at h
  exact h

/-- C2 counterexample: with `far_clip = 1` and a scene whose distance is `1`
until the plane `x = 1` and `0` beyond it, the marcher steps from depth `0`
to depth `1` and then hits at depth `1`, which equals `far_clip` — the hit
depth is not strictly below `far_clip`. -/
theorem raymarch_hit_depth_eq_far_clip :
    (raymarch (fun _ => 0) (Ray.mk Vec3.zero (Vec3.mk 1 0 0))
        (fun v => if v.x < 1 then 1 else 0)
        (RaymarchOptions.mk 10 1 (1/2) (1/100))).hitDepth? = some 1 ∧
    ¬ ((1 : ℚ) < 1) := by
  refine ⟨by with_unfolding_all rfl, by norm_num⟩

/-- C2 (amended): the depth carried by a `HitScene` result never exceeds
`far_clip` (it can equal it, since the miss guard is the strict
`depth > far_clip`), and the scene-distance sample at `ray.at(depth)` on the
terminating iteration is strictly below `epsilon`. -/
theorem raymarch_hit_depth_le (sq : ℚ → ℚ) (ray : Ray) (scene : Vec3 → ℚ)
    (options : RaymarchOptions) (i : ℕ) (d : ℚ) (n : Vec3)
    (h : raymarch sq ray scene options = .HitScene i d n) :
    d ≤ options.far_clip ∧ scene (ray.at' d) < options.epsilon :=
  raymarchLoop_hit_inv sq ray scene options options.max_iterations 0 0
    options.far_clip i d n h

/-- Witness for C2 (amended): a constant-zero scene hits immediately at
depth `0` with `far_clip = 1` and `epsilon = 1`. -/
theorem raymarch_hit_depth_le_witness :
    (0 : ℚ) ≤ 1 ∧ (0 : ℚ) < 1 :=
  raymarch_hit_depth_le (fun _ => 0) (Ray.mk Vec3.zero (Vec3.mk 1 0 0))
    (fun _ => 0) (RaymarchOptions.mk 1 1 1 1) 0 0
    (Vec3.normalize (Vec3.mk 0 0 0) (fun _ => 0)) (by with_unfolding_all rfl)

/-- C4: every call produces exactly one of the three variants, and it
produces `ReachedMaxIterations` precisely when, for every iteration index
below `max_iterations`, the depth does not exceed `far_clip` (no miss) and
the sample is at least `epsilon` (no hit). -/
theorem raymarch_reached_iff (sq : ℚ → ℚ) (ray : Ray) (scene : Vec3 → ℚ)
    (options : RaymarchOptions) :
    ((∃ i nd, raymarch sq ray scene options = .MissedScene i nd) ∨
      (∃ nd, raymarch sq ray scene options = .ReachedMaxIterations nd) ∨
      (∃ i d n, raymarch sq ray scene options = .HitScene i d n)) ∧
    ((∃ nd, raymarch sq ray scene options = .ReachedMaxIterations nd) ↔
      ∀ j, j < options.max_iterations →
        depthSeq ray scene j ≤ options.far_clip ∧
        options.epsilon ≤ sampleAt ray scene j) := by
  constructor
  · cases h : raymarch sq ray scene options with
    | MissedScene i nd => exact Or.inl ⟨i, nd, rfl⟩
    | ReachedMaxIterations nd => exact Or.inr (Or.inl ⟨nd, rfl⟩)
    | HitScene i d n => exact Or.inr (Or.inr ⟨i, d, n, rfl⟩)
  · have h := raymarchLoop_reached_iff sq ray scene options
      options.max_iterations 0 options.far_clip
    have h0 : depthSeq ray scene 0 = 0 := rfl
    rw [h0] at h
    simpa [raymarch] using h

/-- C6: if `max_iterations > 0`, `far_clip > 0` and the scene distance at the
ray origin is strictly below `epsilon`, then `raymarch` hits immediately:
`HitScene` with `iterations = 0` and `depth = 0`. -/
theorem raymarch_origin_hit (sq : ℚ → ℚ) (ray : Ray) (scene : Vec3 → ℚ)
    (options : RaymarchOptions) (hmax : 0 < options.max_iterations)
    (hfar : 0 < options.far_clip) (hhit : scene ray.origin < options.epsilon) :
    raymarch sq ray scene options =
      .HitScene 0 0 (hitNormal sq scene options ray.origin) := by
  obtain ⟨m, hm⟩ : ∃ m, options.max_iterations = m + 1 :=
    ⟨options.max_iterations - 1, by omega⟩
  rw [raymarch, hm, raymarchLoop_succ, Ray.at'_zero,
    if_neg (not_lt.mpr hfar.le), if_pos hhit]

/-- Witness for C6: constant scene `0`, `epsilon = 1`, `far_clip = 1`,
one iteration allowed; the marcher hits at iteration `0`, depth `0`. -/
theorem raymarch_origin_hit_witness :
    0 < (RaymarchOptions.mk 1 1 1 1).max_iterations ∧
      (0 : ℚ) < 1 ∧ (0 : ℚ) < 1 ∧
      raymarch (fun _ => 0) (Ray.mk Vec3.zero (Vec3.mk 0 0 1)) (fun _ => 0)
        (RaymarchOptions.mk 1 1 1 1) =
        .HitScene 0 0
          (hitNormal (fun _ => 0) (fun _ => 0) (RaymarchOptions.mk 1 1 1 1)
            (Ray.mk Vec3.zero (Vec3.mk 0 0 1)).origin) :=
  ⟨by norm_num, by norm_num, by norm_num,
    raymarch_origin_hit (fun _ => 0) (Ray.mk Vec3.zero (Vec3.mk 0 0 1))
      (fun _ => 0) (RaymarchOptions.mk 1 1 1 1) (by norm_num) (by norm_num)
      (by norm_num)⟩

/-! ## Claims about `Camera::render` and the torus field -/

/-- Indexing a grid built from nested `List.range`/`map`: entry `(y, x)` of
the grid whose row `y_pixel` holds `f x_pixel y_pixel` is `f x y`. -/
theorem gridGet?_range_map {α : Type} (f : ℕ → ℕ → α) (W H x y : ℕ)
    (hx : x < W) (hy : y < H) :
    gridGet?
      ((List.range H).map fun y_pixel =>
        (List.range W).map fun x_pixel => f x_pixel y_pixel) y x =
      some (f x y) := by
  unfold gridGet?
  rw [List.getElem?_map, List.getElem?_range hy]
  show ((List.range W).map fun x_pixel => f x_pixel y)[x]? = some (f x y)
  rw [List.getElem?_map, List.getElem?_range hx]
  rfl

/-- The three grids produced by `render` hold, at `(y, x)`, the three
components of `renderPixel` for that pixel. -/
theorem render_entry (sq : ℚ → ℚ) (cam : Camera) (W H : ℕ)
    (scene : Vec3 → ℚ) (options : RaymarchOptions) (x y : ℕ)
    (hx : x < W) (hy : y < H) :
    gridGet? (render sq cam W H scene options).depth y x =
      some (renderPixel sq cam W H scene options x y).1 ∧
    gridGet? (render sq cam W H scene options).proximity y x =
      some (renderPixel sq cam W H scene options x y).2.1 ∧
    gridGet? (render sq cam W H scene options).normals y x =
      some (renderPixel sq cam W H scene options x y).2.2 :=
  ⟨gridGet?_range_map
      (fun x_pixel y_pixel =>
        (renderPixel sq cam W H scene options x_pixel y_pixel).1) W H x y hx hy,
    gridGet?_range_map
      (fun x_pixel y_pixel =>
        (renderPixel sq cam W H scene options x_pixel y_pixel).2.1) W H x y hx
      hy,
    gridGet?_range_map
      (fun x_pixel y_pixel =>
        (renderPixel sq cam W H scene options x_pixel y_pixel).2.2) W H x y hx
      hy⟩

/-- C5: for any pixel inside the grid, the marching result is reduced into
the output grids as follows. `MissedScene`: depth is the infinity sentinel,
proximity is `nearest_distance`, the normal stays at its zero-vector
default. `ReachedMaxIterations`: depth is the NaN sentinel, proximity is
`nearest_distance`, the normal stays at its default. `HitScene`: depth is
the hit depth, the normal is the hit normal, and proximity stays at its
initialized default `0`. -/
theorem render_pixel_reduction (sq : ℚ → ℚ) (cam : Camera) (W H : ℕ)
    (scene : Vec3 → ℚ) (options : RaymarchOptions) (x y : ℕ)
    (hx : x < W) (hy : y < H) :
    (∀ i nd,
      raymarch sq (pixelRay sq cam W H x y) scene options =
        .MissedScene i nd →
      gridGet? (render sq cam W H scene options).depth y x = some FVal.inf ∧
      gridGet? (render sq cam W H scene options).proximity y x = some nd ∧
      gridGet? (render sq cam W H scene options).normals y x =
        some Vec3.zero) ∧
    (∀ nd,
      raymarch sq (pixelRay sq cam W H x y) scene options =
        .ReachedMaxIterations nd →
      gridGet? (render sq cam W H scene options).depth y x = some FVal.nan ∧
      gridGet? (render sq cam W H scene options).proximity y x = some nd ∧
      gridGet? (render sq cam W H scene options).normals y x =
        some Vec3.zero) ∧
    (∀ i d n,
      raymarch sq (pixelRay sq cam W H x y) scene options = .HitScene i d n →
      gridGet? (render sq cam W H scene options).depth y x =
        some (FVal.finite d) ∧
      gridGet? (render sq cam W H scene options).proximity y x = some 0 ∧
      gridGet? (render sq cam W H scene options).normals y x = some n) := by
  obtain ⟨hd, hp, hn⟩ := render_entry sq cam W H scene options x y hx hy
  refine ⟨fun i nd h => ?_, fun nd h => ?_, fun i d n h => ?_⟩ <;>
    rw [hd, hp, hn] <;> simp only [renderPixel, h] <;>
    exact ⟨trivial, trivial, trivial⟩

/-- Witness for C5 at a 1×1 grid: identity basis, constant-zero scene, the
single pixel hits at depth `0` with the zero normal, proximity stays `0`. -/
theorem render_pixel_reduction_witness :
    gridGet?
      (render (fun _ => 1)
        (Camera.mk Vec3.zero
          (Mat3.mk (Vec3.mk 1 0 0) (Vec3.mk 0 1 0) (Vec3.mk 0 0 1)))
        1 1 (fun _ => 0) (RaymarchOptions.mk 1 1 1 1)).depth 0 0 =
      some (FVal.finite 0) ∧
    gridGet?
      (render (fun _ => 1)
        (Camera.mk Vec3.zero
          (Mat3.mk (Vec3.mk 1 0 0) (Vec3.mk 0 1 0) (Vec3.mk 0 0 1)))
        1 1 (fun _ => 0) (RaymarchOptions.mk 1 1 1 1)).proximity 0 0 =
      some 0 ∧
    gridGet?
      (render (fun _ => 1)
        (Camera.mk Vec3.zero
          (Mat3.mk (Vec3.mk 1 0 0) (Vec3.mk 0 1 0) (Vec3.mk 0 0 1)))
        1 1 (fun _ => 0) (RaymarchOptions.mk 1 1 1 1)).normals 0 0 =
      some (Vec3.mk 0 0 0) :=
  (render_pixel_reduction (fun _ => 1)
      (Camera.mk Vec3.zero
        (Mat3.mk (Vec3.mk 1 0 0) (Vec3.mk 0 1 0) (Vec3.mk 0 0 1)))
      1 1 (fun _ => 0) (RaymarchOptions.mk 1 1 1 1) 0 0 (by norm_num)
      (by norm_num)).2.2 0 0 (Vec3.mk 0 0 0) (by with_unfolding_all rfl)

/-- C7: for any pixel inside the grid, the values stored in the three grids
are determined by marching the ray whose origin is the camera origin and
whose direction is the camera basis applied to the normalization of
`(x/W - 1/2, y/H - 1/2, 1)`. -/
theorem render_ray_construction (sq : ℚ → ℚ) (cam : Camera) (W H : ℕ)
    (scene : Vec3 → ℚ) (options : RaymarchOptions) (x y : ℕ)
    (hx : x < W) (hy : y < H) :
    gridGet? (render sq cam W H scene options).depth y x =
      some
        (match
          raymarch sq
            (Ray.mk cam.origin
              (cam.basis.mulVec
                (Vec3.normalize
                  (Vec3.mk ((x : ℚ) / (W : ℚ) - 1/2) ((y : ℚ) / (H : ℚ) - 1/2)
                    1) sq))) scene options with
        | .MissedScene _ _ => FVal.inf
        | .ReachedMaxIterations _ => FVal.nan
        | .HitScene _ d _ => FVal.finite d) ∧
    gridGet? (render sq cam W H scene options).proximity y x =
      some
        (match
          raymarch sq
            (Ray.mk cam.origin
              (cam.basis.mulVec
                (Vec3.normalize
                  (Vec3.mk ((x : ℚ) / (W : ℚ) - 1/2) ((y : ℚ) / (H : ℚ) - 1/2)
                    1) sq))) scene options with
        | .MissedScene _ nd => nd
        | .ReachedMaxIterations nd => nd
        | .HitScene _ _ _ => 0) ∧
    gridGet? (render sq cam W H scene options).normals y x =
      some
        (match
          raymarch sq
            (Ray.mk cam.origin
              (cam.basis.mulVec
                (Vec3.normalize
                  (Vec3.mk ((x : ℚ) / (W : ℚ) - 1/2) ((y : ℚ) / (H : ℚ) - 1/2)
                    1) sq))) scene options with
        | .MissedScene _ _ => Vec3.zero
        | .ReachedMaxIterations _ => Vec3.zero
        | .HitScene _ _ n => n) := by
  obtain ⟨hd, hp, hn⟩ := render_entry sq cam W H scene options x y hx hy
  have hray : pixelRay sq cam W H x y =
      Ray.mk cam.origin
        (cam.basis.mulVec
          (Vec3.normalize
            (Vec3.mk ((x : ℚ) / (W : ℚ) - 1/2) ((y : ℚ) / (H : ℚ) - 1/2) 1)
            sq)) := rfl
  rw [hd, hp, hn]
  simp only [renderPixel, hray]
  refine ⟨?_, ?_, ?_⟩ <;>
    cases raymarch sq
      (Ray.mk cam.origin
        (cam.basis.mulVec
          (Vec3.normalize
            (Vec3.mk ((x : ℚ) / (W : ℚ) - 1/2) ((y : ℚ) / (H : ℚ) - 1/2) 1)
            sq))) scene options <;> rfl

/-- Witness for C7 at a 1×1 grid with identity basis and constant-zero
scene: the pixel's grid entries come from the hit at depth `0`. -/
theorem render_ray_construction_witness :
    gridGet?
      (render (fun _ => 1)
        (Camera.mk Vec3.zero
          (Mat3.mk (Vec3.mk 1 0 0) (Vec3.mk 0 1 0) (Vec3.mk 0 0 1)))
        1 1 (fun _ => 0) (RaymarchOptions.mk 1 1 1 1)).depth 0 0 =
      some (FVal.finite 0) ∧
    gridGet?
      (render (fun _ => 1)
        (Camera.mk Vec3.zero
          (Mat3.mk (Vec3.mk 1 0 0) (Vec3.mk 0 1 0) (Vec3.mk 0 0 1)))
        1 1 (fun _ => 0) (RaymarchOptions.mk 1 1 1 1)).proximity 0 0 =
      some 0 ∧
    gridGet?
      (render (fun _ => 1)
        (Camera.mk Vec3.zero
          (Mat3.mk (Vec3.mk 1 0 0) (Vec3.mk 0 1 0) (Vec3.mk 0 0 1)))
        1 1 (fun _ => 0) (RaymarchOptions.mk 1 1 1 1)).normals 0 0 =
      some (Vec3.mk 0 0 0) := by
  have h := render_ray_construction (fun _ => 1)
    (Camera.mk Vec3.zero
      (Mat3.mk (Vec3.mk 1 0 0) (Vec3.mk 0 1 0) (Vec3.mk 0 0 1)))
    1 1 (fun _ => 0) (RaymarchOptions.mk 1 1 1 1) 0 0 (by norm_num)
    (by norm_num)
  exact ⟨h.1.trans (by with_unfolding_all rfl),
    h.2.1.trans (by with_unfolding_all rfl),
    h.2.2.trans (by with_unfolding_all rfl)⟩

/-- C8: `torus` computes exactly the spec's formula: with `p = pos - origin`
decomposed into its component along `normal` and the in-plane remainder, the
result is `length((length(in_plane) - major_radius, along_normal)) -
minor_radius`. -/
theorem torus_eq_spec (sq : ℚ → ℚ) (pos origin normal : Vec3)
    (major_radius minor_radius : ℚ) :
    torus sq pos origin normal major_radius minor_radius =
      torusSpec sq pos origin normal major_radius minor_radius := rfl

end Donut
